import Mathlib

/-!
Verification of the command-dispatch logic of `src/shell.c` (a minimal
Unix shell).  The C program is shallowly embedded: the tokenizer
(`strtok` on single spaces), the operator scan, the `&` stripping, the
history slot, the pipe split, and the child-process branches are
translated into executable Lean definitions; the process-level side
effects of a child (open / dup2 / close / execvp / perror / exit) are
modelled as an explicit event trace.
-/

namespace CShell

/-- The constant `MAX_LINE` from shell.c line 37: the maximum length command. -/
def MAX_LINE : Nat := 80

/-- The value `argSize` from shell.c line 60: capacity of the `args` array. -/
def argSize : Nat := MAX_LINE / 2 + 1

/-! ## Tokenization (shell.c lines 119-125, strtok on a single space) -/

/-- Accumulator-style tokenizer mirroring repeated `strtok(·, " ")` calls:
runs of spaces are skipped and only non-empty tokens are produced.
`cur` holds the (reversed) characters of the token being built. -/
def tokenizeAux : List Char → List Char → List (List Char)
  | [], cur => if cur.isEmpty then [] else [cur.reverse]
  | c :: rest, cur =>
    if c = ' ' then
      if cur.isEmpty then tokenizeAux rest []
      else cur.reverse :: tokenizeAux rest []
    else tokenizeAux rest (c :: cur)

/-- The argument vector produced from a command line, as in shell.c
lines 119-125 (`args[numArgs] = strtok(...)` loop). -/
def tokenize (s : List Char) : List String :=
  (tokenizeAux s []).map (fun t => String.mk t)

/-! ## Background flag (shell.c lines 112-117) -/

/-- The test `bgProcess = theCommand[strlen(theCommand) - 1] == '&'` followed by
removal of the trailing `&` when set (shell.c lines 113-117). -/
def stripBg (cmd : List Char) : List Char × Bool :=
  let bg : Bool := cmd.getLast? == some '&'
  if bg then (cmd.dropLast, true) else (cmd, false)

/-- The argument vector and background flag obtained from the command
text, composing shell.c lines 112-117 (strip `&`) with lines 119-125
(tokenize): the `&` is removed before `strtok` runs. -/
def parseArgs (cmd : List Char) : List String × Bool :=
  let sb := stripBg cmd
  (tokenize sb.1, sb.2)

/-! ## Operator scan (shell.c lines 131-151) -/

/-- The classification recorded by the scan loop: `none` corresponds to
`needPipe = 0, ioRedirect = 0`; `inputRedirect` to `ioRedirect = 1`;
`outputRedirect` to `ioRedirect = 2`; `pipe` to `needPipe = 1`. -/
inductive OpClass where
  | none
  | inputRedirect
  | outputRedirect
  | pipe
deriving DecidableEq, Repr

/-- The classification a single token would trigger in the scan loop
(shell.c lines 136-150). -/
def tokClass (t : String) : OpClass :=
  if t = "<" then OpClass.inputRedirect
  else if t = ">" then OpClass.outputRedirect
  else if t = "|" then OpClass.pipe
  else OpClass.none

/-- The scan loop body from shell.c lines 134-151, scanning the list `l`
of tokens whose first element sits at index `s` of the argument vector;
returns the classification and the final value of `i` (the index of the
operator when found, or one past the last scanned index otherwise). -/
def findOpFrom : List String → Nat → OpClass × Nat
  | [], i => (OpClass.none, i)
  | t :: rest, i =>
    if t = "<" then (OpClass.inputRedirect, i)
    else if t = ">" then (OpClass.outputRedirect, i)
    else if t = "|" then (OpClass.pipe, i)
    else findOpFrom rest (i + 1)

/-- The full scan `for (i = 1; i <= numArgs - 1; i++)` of shell.c
lines 134-151: index 0 is never examined, so the scan walks the tail of
the argument vector with the counter starting at 1. -/
def findOp (args : List String) : OpClass × Nat :=
  findOpFrom (args.drop 1) 1

/-! ## One iteration of the read loop (shell.c lines 78-155) -/

/-- The data handed to `fork()`/the child when an iteration reaches
shell.c line 155: the tokenized argument vector, the background flag,
and the operator scan result. -/
structure SpawnInfo where
  args : List String
  bg : Bool
  cls : OpClass
  opIdx : Nat
deriving DecidableEq, Repr

/-- Observable outcome of one iteration of the `while (should_run)`
loop before any process side effects: the history slot afterwards,
whether a `fork()` happens (and with what data), any message printed,
and whether the loop terminates. -/
structure IterOut where
  hist : String
  spawned : Option SpawnInfo
  msg : Option String
  exited : Bool
deriving DecidableEq, Repr

/-- The tail of a loop iteration once `theCommand` holds the text to
run (shell.c lines 112-155): strip `&`, tokenize, scan for an operator,
then fork. `hist` is the history slot value after the iteration. -/
def dispatch (hist cmd : String) (msg : Option String) : IterOut :=
  let sb := stripBg cmd.toList
  let args := tokenize sb.1
  let fo := findOp args
  ⟨hist, some ⟨args, sb.2, fo.1, fo.2⟩, msg, false⟩

/-- One iteration of the read loop given the current history slot and
the entered line (newline already removed), shell.c lines 78-155:
empty line (line 79), `exit` (line 85), `!!` with empty/non-empty
history (lines 92-104), and the default branch that stores the line
into history (line 109) before dispatching. -/
def shellStep (hist line : String) : IterOut :=
  if line = "" then ⟨hist, none, none, false⟩
  else if line = "exit" then ⟨hist, none, none, true⟩
  else if line = "!!" then
    if hist = "" then ⟨hist, none, some "No command in history.", false⟩
    else dispatch hist hist (some ("Previous command: " ++ hist))
  else dispatch line line none

/-- The history slot after a whole sequence of entered lines, folding
`shellStep` from an initial slot value. -/
def runHistory (h : String) (lines : List String) : String :=
  lines.foldl (fun acc l => (shellStep acc l).hist) h

/-- Whether a line is stored into the history slot by its iteration
(shell.c line 109 is reached exactly when the line is non-empty, not
`exit` and not `!!`). -/
def storedLine (l : String) : Bool :=
  !(l == "" || l == "exit" || l == "!!")

/-- Last element of a list, or the default `d` when the list is empty. -/
def lastD : List String → String → String
  | [], d => d
  | x :: xs, _ => lastD xs x

/-! ## Event-trace model of the child processes (shell.c lines 165-287) -/

/-- The two open modes used by shell.c: `O_RDONLY` (line 240) and
`O_WRONLY | O_CREAT | O_TRUNC` (line 257). -/
inductive OpenMode where
  | rdonly
  | wronlyCreatTrunc
deriving DecidableEq, Repr

/-- Standard file descriptors targeted by `dup2`. -/
inductive Fd where
  | stdin
  | stdout
deriving DecidableEq, Repr

/-- One observable action of a child process.  A `char *` argument of a
syscall is an `Option String` (`Option.none` is the NULL pointer);
`execCall p a` records the program name and the NULL-terminated
argument array handed to `execvp`. -/
inductive Event where
  | openCall (path : Option String) (mode : OpenMode)
  | dup2 (fd : Fd)
  | closeFd
  | waitChild
  | execCall (prog : Option String) (argv : List (Option String))
  | perrorMsg (msg : String)
  | exitCode (code : Nat)
deriving DecidableEq, Repr

/-- In-memory file system: an association list from file names to
contents, used to decide whether `open` succeeds. -/
def Fs : Type := List (String × String)

/-- Contents of file `n`, or `Option.none` when it does not exist. -/
def fsGet (fs : Fs) (n : String) : Option String :=
  match fs with
  | [] => Option.none
  | (m, v) :: rest => if m = n then some v else fsGet rest n

/-- Create or overwrite file `n` with contents `v`. -/
def fsSet (fs : Fs) (n v : String) : Fs :=
  match fs with
  | [] => [(n, v)]
  | (m, w) :: rest => if m = n then (m, v) :: rest else (m, w) :: fsSet rest n v

/-- Whether `open(p, O_RDONLY)` succeeds: it fails on a NULL path or on
a missing file (so `fd2 == -1 || args[i+1] == NULL` at shell.c line 241
is exactly the negation of this). -/
def openInputOk (fs : Fs) (p : Option String) : Bool :=
  match p with
  | Option.none => false
  | some n => (fsGet fs n).isSome

/-- Whether `open(p, O_WRONLY | O_CREAT | O_TRUNC)` succeeds: the file
is created if absent, so in this model only a NULL path fails (matching
the `fd2 == -1 || args[i+1] == NULL` test at shell.c line 258). -/
def openOutputOk (p : Option String) : Bool :=
  p.isSome

/-- Effect of a successful `open(n, O_WRONLY | O_CREAT | O_TRUNC)` on
the file system (shell.c line 257): the file is created if absent and
its contents are truncated to the empty string before any write. -/
def openOutputFs (fs : Fs) (n : String) : Fs :=
  fsSet fs n ""

/-- A write to an open file descriptor appends to the current contents
of the file. -/
def writeFd (fs : Fs) (n data : String) : Fs :=
  fsSet fs n ((fsGet fs n).getD "" ++ data)

/-- One run of an output-redirected command whose program writes `out`
to its (redirected) standard output: the child opens the file with
`O_WRONLY | O_CREAT | O_TRUNC` (shell.c line 257), dups it onto stdout
(line 266), and the executed program's output lands in the file. -/
def runOutputRedirect (fs : Fs) (n out : String) : Fs :=
  writeFd (openOutputFs fs n) n out

/-- The trailing events of a process that reaches
`if (execvp(prog, argv) == -1) { perror("Exec failed"); exit(1); }`
(shell.c lines 206-210, 219-223 and 270-274): `execvp` either replaces
the process image (`execOk = true`, no further events from this code)
or returns `-1`, upon which the process reports and exits with 1. -/
def execSeq (execOk : Bool) (prog : Option String) (argv : List (Option String)) : List Event :=
  Event.execCall prog argv ::
    (if execOk then [] else [Event.perrorMsg "Exec failed", Event.exitCode 1])

/-- The argument array seen by `execvp` in the redirect branches after
`args[i] = NULL; args[i+1] = NULL` (shell.c lines 247-248 and 264-265):
the C array already holds NULL at index `numArgs`, modelled by the
appended terminator. -/
def redirArgv (args : List String) (i : Nat) : List (Option String) :=
  (((args.map some).set i Option.none).set (i + 1) Option.none) ++ [Option.none]

/-- The plain argument array `args` handed to `execvp` when no
redirection happened (shell.c line 270), with its NULL terminator. -/
def plainArgv (args : List String) : List (Option String) :=
  args.map some ++ [Option.none]

/-- Event trace of the child in the no-pipe branch (shell.c lines
234-286), given the file system, whether `execvp` can succeed, the
argument vector, the `ioRedirect` value (0, 1 or 2) and the operator
index `i`.  Note the source calls `open(args[i+1], ...)` *before*
testing `args[i+1] == NULL`, so the (possibly NULL) operand always
appears in an `openCall` event first. -/
def childNoPipe (fs : Fs) (execOk : Bool) (args : List String) (ioRedirect i : Nat) :
    List Event :=
  if ioRedirect = 1 then
    Event.openCall (args.get? (i + 1)) OpenMode.rdonly ::
      (if openInputOk fs (args.get? (i + 1)) then
        Event.dup2 Fd.stdin :: execSeq execOk (args.get? 0) (redirArgv args i)
      else [Event.perrorMsg "Input file failed", Event.exitCode 1])
  else if ioRedirect = 2 then
    Event.openCall (args.get? (i + 1)) OpenMode.wronlyCreatTrunc ::
      (if openOutputOk (args.get? (i + 1)) then
        Event.dup2 Fd.stdout :: execSeq execOk (args.get? 0) (redirArgv args i)
      else [Event.perrorMsg "Output file failed", Event.exitCode 1])
  else
    execSeq execOk (args.get? 0) (plainArgv args)

/-! ## Pipe splitting (shell.c lines 179-193) -/

/-- The array `firstCommand` as built by the copy loop at shell.c lines 183-187:
`firstCommand[j] = args[j]` for `j < i`, then a NULL terminator. -/
def firstCommand (args : List String) (i : Nat) : List (Option String) :=
  (List.range i).map (fun j => args.get? j) ++ [Option.none]

/-- The array `secondCommand` as built by the copy loop at shell.c lines 189-193:
`secondCommand[j] = args[j + i + 1]` for `j < numArgs - i - 1`, then a
NULL terminator. -/
def secondCommand (args : List String) (numArgs i : Nat) : List (Option String) :=
  (List.range (numArgs - i - 1)).map (fun j => args.get? (j + i + 1)) ++ [Option.none]

/-- Event trace of the pipe-owning child after the inner `fork()`
returns a positive pid (shell.c lines 199-211): wait for the
grandchild, dup the pipe's read end onto stdin, close both ends, exec
the second command. -/
def pipeOwnerTrace (execOk : Bool) (second : List (Option String)) : List Event :=
  Event.waitChild :: Event.dup2 Fd.stdin :: Event.closeFd :: Event.closeFd ::
    execSeq execOk ((second.get? 0).join) second

/-- Event trace of the grandchild (shell.c lines 213-225): dup the
pipe's write end onto stdout, close both ends, exec the first
command. -/
def pipeGrandchildTrace (execOk : Bool) (first : List (Option String)) : List Event :=
  Event.dup2 Fd.stdout :: Event.closeFd :: Event.closeFd ::
    execSeq execOk ((first.get? 0).join) first

/-! ## Interleaving semantics for the pipe-owner / grandchild pair

A schedule interleaves the two processes' remaining event lists.  The
only synchronisation in the source is `wait(&status2)` at shell.c line
201: per `wait(2)`, it can fire only once the grandchild has terminated,
i.e. has no remaining events. -/

/-- One scheduler step on the pair (owner's remaining events,
grandchild's remaining events).  The label records which process acted
(`true` = pipe-owning child) and which event it performed. -/
inductive PStep : (List Event × List Event) → (Bool × Event) → (List Event × List Event) → Prop
  | owner {e : Event} {o g : List Event} (hne : e ≠ Event.waitChild) :
      PStep (e :: o, g) (true, e) (o, g)
  | ownerWait {o : List Event} :
      PStep (Event.waitChild :: o, []) (true, Event.waitChild) (o, [])
  | gchild {e : Event} {o g : List Event} :
      PStep (o, e :: g) (false, e) (o, g)

/-- A complete run: the labelled steps transforming one scheduler state
into another. -/
inductive Run : (List Event × List Event) → List (Bool × Event) → (List Event × List Event) → Prop
  | nil {s : List Event × List Event} : Run s [] s
  | cons {s s₁ s₂ : List Event × List Event} {a : Bool × Event} {l : List (Bool × Event)} :
      PStep s a s₁ → Run s₁ l s₂ → Run s (a :: l) s₂

/-! ## Lemmas about the operator scan -/

/-- The scan returns `OpClass.none` exactly when no scanned token is an
operator token. -/
theorem findOpFrom_none (l : List String) (s : Nat) :
    (findOpFrom l s).1 = OpClass.none ↔ ∀ t ∈ l, tokClass t = OpClass.none := by
  induction l generalizing s with
  | nil => simp [findOpFrom]
  | cons t rest ih =>
    by_cases h1 : t = "<"
    · simp [findOpFrom, h1, tokClass]
    · by_cases h2 : t = ">"
      · simp [findOpFrom, h1, h2, tokClass]
      · by_cases h3 : t = "|"
        · simp [findOpFrom, h1, h2, h3, tokClass]
        · simp [findOpFrom, h1, h2, h3, tokClass, ih (s + 1)]

/-- When the scan finds an operator, the returned index points at the
first operator token of the scanned list. -/
theorem findOpFrom_found (l : List String) (s : Nat) (c : OpClass) (i : Nat)
    (h : findOpFrom l s = (c, i)) (hc : c ≠ OpClass.none) :
    s ≤ i ∧ (∃ t, l.get? (i - s) = some t ∧ tokClass t = c) ∧
      ∀ j t, j < i - s → l.get? j = some t → tokClass t = OpClass.none := by
  induction l generalizing s with
  | nil =>
    unfold findOpFrom at h
    injection h with hcls hidx
    exact absurd hcls.symm hc
  | cons t rest ih =>
    unfold findOpFrom at h
    by_cases h1 : t = "<"
    · rw [if_pos h1] at h
      injection h with hcls hidx
      subst hcls
      subst hidx
      refine ⟨Nat.le_refl s, ⟨t, by simp, by simp [tokClass, h1]⟩, ?_⟩
      intro j t' hj hget
      omega
    · rw [if_neg h1] at h
      by_cases h2 : t = ">"
      · rw [if_pos h2] at h
        injection h with hcls hidx
        subst hcls
        subst hidx
        refine ⟨Nat.le_refl s, ⟨t, by simp, by simp [tokClass, h1, h2]⟩, ?_⟩
        intro j t' hj hget
        omega
      · rw [if_neg h2] at h
        by_cases h3 : t = "|"
        · rw [if_pos h3] at h
          injection h with hcls hidx
          subst hcls
          subst hidx
          refine ⟨Nat.le_refl s, ⟨t, by simp, by simp [tokClass, h1, h2, h3]⟩, ?_⟩
          intro j t' hj hget
          omega
        · rw [if_neg h3] at h
          obtain ⟨hsle, ⟨t', hget, htc⟩, hbef⟩ := ih (s + 1) h
          refine ⟨by omega, ⟨t', ?_, htc⟩, ?_⟩
          · have hidx : i - s = (i - (s + 1)) + 1 := by omega
            rw [hidx]
            simpa using hget
          · intro j t'' hj hget'
            cases j with
            | zero =>
              simp only [List.get?_cons_zero, Option.some.injEq] at hget'
              subst hget'
              simp [tokClass, h1, h2, h3]
            | succ k =>
              have hk : k < i - (s + 1) := by omega
              exact hbef k t'' hk (by simpa using hget')

/-- Quantifying over the tail of the argument vector is the same as
quantifying over indices from 1 onward. -/
theorem drop_one_forall (args : List String) (P : String → Prop) :
    (∀ t ∈ args.drop 1, P t) ↔ ∀ j t, 1 ≤ j → args.get? j = some t → P t := by
  constructor
  · intro h j t hj hget
    apply h
    rw [List.mem_iff_get?]
    refine ⟨j - 1, ?_⟩
    rw [List.get?_drop]
    rwa [Nat.add_sub_cancel' hj]
  · intro h t ht
    rw [List.mem_iff_get?] at ht
    obtain ⟨n, hn⟩ := ht
    rw [List.get?_drop] at hn
    exact h (1 + n) t (by omega) hn

/-- C1: For every argument vector, the scan of shell.c lines 134-151
selects exactly one classification; it is `OpClass.none` iff no token
from index 1 on is an operator, and otherwise the recorded index is the
first index `≥ 1` holding an operator token, with no operator token
before it; index 0 never influences the result. -/
theorem firstOperatorDeterminesClassification (args : List String) :
    ((findOp args).1 = OpClass.none ↔
      ∀ j t, 1 ≤ j → args.get? j = some t → tokClass t = OpClass.none)
    ∧ ((findOp args).1 ≠ OpClass.none →
        1 ≤ (findOp args).2 ∧
        (∃ t, args.get? (findOp args).2 = some t ∧ tokClass t = (findOp args).1) ∧
        ∀ j t, 1 ≤ j → j < (findOp args).2 → args.get? j = some t →
          tokClass t = OpClass.none)
    ∧ ∀ x y rest, findOp (x :: rest) = findOp (y :: rest) := by
  refine ⟨?_, ?_, fun x y rest => rfl⟩
  · rw [show findOp args = findOpFrom (args.drop 1) 1 from rfl]
    rw [findOpFrom_none (args.drop 1) 1]
    exact drop_one_forall args (fun t => tokClass t = OpClass.none)
  · intro hc
    obtain ⟨hsle, ⟨t, hget, htc⟩, hbef⟩ :=
      findOpFrom_found (args.drop 1) 1 (findOp args).1 (findOp args).2 rfl hc
    refine ⟨hsle, ⟨t, ?_, htc⟩, ?_⟩
    · rw [List.get?_drop] at hget
      rwa [Nat.add_sub_cancel' hsle] at hget
    · intro j t' hj hlt hget'
      refine hbef (j - 1) t' (by omega) ?_
      rw [List.get?_drop]
      rwa [Nat.add_sub_cancel' hj]

/-- Witness for C1 at the concrete vector `["ls","-l","|","wc","-l"]`,
whose first operator is the pipe at index 2. -/
theorem firstOperatorDeterminesClassification_witness :
    1 ≤ (findOp ["ls", "-l", "|", "wc", "-l"]).2 ∧
    (∃ t, (["ls", "-l", "|", "wc", "-l"] : List String).get?
        (findOp ["ls", "-l", "|", "wc", "-l"]).2 = some t ∧
      tokClass t = (findOp ["ls", "-l", "|", "wc", "-l"]).1) ∧
    ∀ j t, 1 ≤ j → j < (findOp ["ls", "-l", "|", "wc", "-l"]).2 →
      (["ls", "-l", "|", "wc", "-l"] : List String).get? j = some t →
        tokClass t = OpClass.none :=
  (firstOperatorDeterminesClassification ["ls", "-l", "|", "wc", "-l"]).2.1 (by decide)

/-! ## Lemmas about the pipe split -/

/-- When the scan reports a found operator, its index is inside the
argument vector. -/
theorem findOp_found_lt (args : List String) (c : OpClass) (i : Nat)
    (h : findOp args = (c, i)) (hc : c ≠ OpClass.none) : i < args.length := by
  obtain ⟨hsle, ⟨t, hget, htc⟩, hbef⟩ := findOpFrom_found (args.drop 1) 1 c i h hc
  obtain ⟨hlen, -⟩ := List.get?_eq_some.mp hget
  rw [List.length_drop] at hlen
  omega

/-- Reading the first `n` positions of `l` through `get?` is reading
`l.take n`, provided `n ≤ l.length`. -/
theorem range_map_get?_eq_take (l : List String) (n : Nat) (h : n ≤ l.length) :
    (List.range n).map (fun j => l.get? j) = (l.take n).map some := by
  apply List.ext
  intro k
  by_cases hk : k < n
  · rw [List.get?_map, List.get?_range hk, List.get?_map, List.get?_take hk]
    simp only [Option.map_some']
    rw [List.get?_eq_get (show k < l.length by omega)]
    rfl
  · have h1 : ((List.range n).map (fun j => l.get? j)).get? k = Option.none := by
      apply List.get?_eq_none.mpr
      simp only [List.length_map, List.length_range]
      omega
    have h2 : ((l.take n).map some).get? k = Option.none := by
      apply List.get?_eq_none.mpr
      simp only [List.length_map, List.length_take]
      omega
    rw [h1, h2]

/-- Reading positions `i+1, i+2, ...` of `l` through `get?` is reading
`l.drop (i+1)`. -/
theorem range_map_get?_eq_drop (l : List String) (i : Nat) :
    (List.range (l.length - i - 1)).map (fun j => l.get? (j + i + 1)) =
      (l.drop (i + 1)).map some := by
  apply List.ext
  intro k
  by_cases hk : k < l.length - i - 1
  · rw [List.get?_map, List.get?_range hk, List.get?_map, List.get?_drop]
    rw [show i + 1 + k = k + i + 1 by omega]
    simp only [Option.map_some']
    rw [List.get?_eq_get (show k + i + 1 < l.length by omega)]
    rfl
  · have h1 : (((List.range (l.length - i - 1)).map (fun j => l.get? (j + i + 1)))).get? k =
        Option.none := by
      apply List.get?_eq_none.mpr
      simp only [List.length_map, List.length_range]
      omega
    have h2 : ((l.drop (i + 1)).map some).get? k = Option.none := by
      apply List.get?_eq_none.mpr
      simp only [List.length_map, List.length_drop]
      omega
    rw [h1, h2]

/-- C2: when the scan finds the pipe at index `i`, the copy loops of
shell.c lines 183-193 produce exactly `args[0..i)` and
`args[i+1..numArgs)`, each followed by a NULL terminator; in particular
`["ls","-l","|","wc","-l"]` splits into `["ls","-l"]` and
`["wc","-l"]`. -/
theorem pipeSplitCommands (args : List String) (i : Nat)
    (h : findOp args = (OpClass.pipe, i)) :
    firstCommand args i = (args.take i).map some ++ [Option.none] ∧
    secondCommand args args.length i = (args.drop (i + 1)).map some ++ [Option.none] ∧
    firstCommand ["ls", "-l", "|", "wc", "-l"] 2 =
      [some "ls", some "-l", Option.none] ∧
    secondCommand ["ls", "-l", "|", "wc", "-l"] 5 2 =
      [some "wc", some "-l", Option.none] ∧
    findOp ["ls", "-l", "|", "wc", "-l"] = (OpClass.pipe, 2) := by
  have hlt : i < args.length :=
    findOp_found_lt args OpClass.pipe i h (by intro hx; exact OpClass.noConfusion hx)
  refine ⟨?_, ?_, by decide, by decide, by decide⟩
  · unfold firstCommand
    rw [range_map_get?_eq_take args i (by omega)]
  · unfold secondCommand
    rw [range_map_get?_eq_drop args i]

/-- Witness for C2 at the concrete vector of the claim. -/
theorem pipeSplitCommands_witness :
    firstCommand ["ls", "-l", "|", "wc", "-l"] 2 =
      ((["ls", "-l", "|", "wc", "-l"] : List String).take 2).map some ++ [Option.none] ∧
    secondCommand ["ls", "-l", "|", "wc", "-l"]
        (["ls", "-l", "|", "wc", "-l"] : List String).length 2 =
      ((["ls", "-l", "|", "wc", "-l"] : List String).drop 3).map some ++ [Option.none] :=
  ⟨(pipeSplitCommands ["ls", "-l", "|", "wc", "-l"] 2 (by decide)).1,
   (pipeSplitCommands ["ls", "-l", "|", "wc", "-l"] 2 (by decide)).2.1⟩

/-! ## The history slot -/

/-- The history slot after one iteration: the entered line when it is
stored (non-empty, not `exit`, not `!!`), the previous value
otherwise. -/
theorem shellStep_hist (h l : String) :
    (shellStep h l).hist = if storedLine l then l else h := by
  unfold shellStep storedLine
  by_cases h1 : l = ""
  · simp [h1]
  · by_cases h2 : l = "exit"
    · simp [h1, h2]
    · by_cases h3 : l = "!!"
      · by_cases h4 : h = ""
        · simp [h1, h2, h3, h4]
        · simp [h1, h2, h3, h4, dispatch]
      · simp [h1, h2, h3, dispatch]

/-- C3: entering `!!` never changes the history slot; across any
sequence of iterations the slot holds the most recently entered line
that was non-empty and neither `exit` nor `!!` (or the initial value if
there is none); and `!!` with an empty slot prints the no-history
message, spawns no process, and leaves the slot empty. -/
theorem historySlotInvariant :
    (∀ h : String, (shellStep h "!!").hist = h)
    ∧ (∀ (h : String) (lines : List String),
        runHistory h lines = lastD (lines.filter storedLine) h)
    ∧ (shellStep "" "!!").spawned = Option.none
    ∧ (shellStep "" "!!").msg = some "No command in history."
    ∧ (shellStep "" "!!").hist = "" := by
  refine ⟨?_, ?_, by decide, by decide, by decide⟩
  · intro h
    rw [shellStep_hist]
    rfl
  · intro h lines
    induction lines generalizing h with
    | nil => rfl
    | cons l ls ih =>
      show runHistory (shellStep h l).hist ls = lastD ((l :: ls).filter storedLine) h
      rw [List.filter_cons, shellStep_hist]
      by_cases hs : storedLine l
      · rw [if_pos hs, if_pos hs]
        exact ih l
      · rw [if_neg hs, if_neg (by simpa using hs)]
        exact ih h

/-- Witness: C3's conjuncts are hypothesis-free, but we record the
invariant at a concrete session: after `ls`, then `!!`, then an empty
line, the slot holds `ls`. -/
theorem historySlotInvariant_witness :
    runHistory "" ["ls", "!!", ""] =
      lastD ((["ls", "!!", ""] : List String).filter storedLine) "" :=
  historySlotInvariant.2.1 "" ["ls", "!!", ""]

/-! ## The whitespace-only line (C5) -/

/-- C5 fails on the code: an all-whitespace line such as `" "` is *not*
treated as an empty line.  `theCommand[0]` is a space, so the guard at
shell.c line 79 does not fire; the line is copied into the history slot
(line 109), and the iteration reaches `fork()` at line 155 with an
empty argument vector; the child then calls `execvp(args[0], args)`
with `args[0] == NULL`.  This theorem evaluates the embedding at that
input: the spawn happens (with empty vector), history is clobbered, and
the child's first and only pre-exit action is an `execvp` whose program name and sole argument slot are NULL.  -/
theorem whitespaceLineSpawnsProcess :
    (shellStep "" " ").spawned = some ⟨[], false, OpClass.none, 1⟩
    ∧ (shellStep "" " ").hist = " "
    ∧ childNoPipe [] true [] 0 1 = [Event.execCall Option.none [Option.none]] := by
  decide

/-! ## Background flag stripping (C8) -/

/-- C8: a command whose last character is `&` has that character
stripped and the background flag set; any other command is left
unchanged with the flag clear.  In particular `"sleep 1 &"` tokenizes
to `["sleep","1"]` with the flag set and `"sleep 1"` to the same vector
with the flag clear. -/
theorem backgroundFlagStripping :
    (∀ cmd : List Char,
      (cmd.getLast? = some '&' → stripBg cmd = (cmd.dropLast, true))
      ∧ (cmd.getLast? ≠ some '&' → stripBg cmd = (cmd, false)))
    ∧ parseArgs "sleep 1 &".toList = (["sleep", "1"], true)
    ∧ parseArgs "sleep 1".toList = (["sleep", "1"], false) := by
  refine ⟨?_, by decide, by decide⟩
  intro cmd
  constructor
  · intro hlast
    unfold stripBg
    rw [if_pos (by simp [hlast])]
  · intro hlast
    unfold stripBg
    rw [if_neg (by simpa using hlast)]

/-- Witness for C8, discharging the last-character hypotheses at the
two concrete lines of the claim. -/
theorem backgroundFlagStripping_witness :
    stripBg "sleep 1 &".toList = ("sleep 1 &".toList.dropLast, true)
    ∧ stripBg "sleep 1".toList = ("sleep 1".toList, false) :=
  ⟨(backgroundFlagStripping.1 "sleep 1 &".toList).1 (by decide),
   (backgroundFlagStripping.1 "sleep 1".toList).2 (by decide)⟩

/-! ## Operator at the last index (C4) -/

/-- C4 as stated is false on the code: it asserts the orchestrator
fails "without passing an absent operand to open/exec", but shell.c
line 240 calls `open(args[i + 1], O_RDONLY, 0666)` *before* the
`args[i + 1] == NULL` test at line 241.  For the vector
`["cat", "<"]` the operator is at the last index, `args[i + 1]` is the
NULL terminator, and the child's trace contains an `open` call whose
path operand is NULL. -/
theorem operatorAtLastIndexPassesNullToOpen :
    findOp ["cat", "<"] = (OpClass.inputRedirect, 1)
    ∧ Event.openCall Option.none OpenMode.rdonly ∈
        childNoPipe [] true ["cat", "<"] 1 1 := by
  decide

/-- C4 amended: with the operator at the last index the child does pass
the absent (NULL) operand to `open` (redirect cases) resp. hands a NULL
program name to `execvp` (pipe case), but afterwards it fails
gracefully: the redirect child reports the file error and exits with
status 1, reading no argument slot beyond the NULL terminator at index
`numArgs`; the pipe case builds a Second-Command consisting of only the
NULL terminator. -/
theorem operatorAtLastIndexFailsAfterNullOperand (fs : Fs) (execOk : Bool)
    (args : List String) (i : Nat) (h : i + 1 = args.length) :
    childNoPipe fs execOk args 1 i =
      [Event.openCall Option.none OpenMode.rdonly,
       Event.perrorMsg "Input file failed", Event.exitCode 1]
    ∧ childNoPipe fs execOk args 2 i =
      [Event.openCall Option.none OpenMode.wronlyCreatTrunc,
       Event.perrorMsg "Output file failed", Event.exitCode 1]
    ∧ secondCommand args args.length i = [Option.none]
    ∧ Event.execCall Option.none [Option.none] ∈
        pipeOwnerTrace execOk (secondCommand args args.length i) := by
  have hget : args.get? (i + 1) = Option.none := List.get?_eq_none.mpr (by omega)
  have h2nd : secondCommand args args.length i = [Option.none] := by
    simp [secondCommand, show args.length - i - 1 = 0 by omega]
  refine ⟨?_, ?_, h2nd, ?_⟩
  · show Event.openCall (args.get? (i + 1)) OpenMode.rdonly ::
        (if openInputOk fs (args.get? (i + 1)) then
          Event.dup2 Fd.stdin :: execSeq execOk (args.get? 0) (redirArgv args i)
        else [Event.perrorMsg "Input file failed", Event.exitCode 1]) =
      [Event.openCall Option.none OpenMode.rdonly,
       Event.perrorMsg "Input file failed", Event.exitCode 1]
    rw [hget]
    rfl
  · show Event.openCall (args.get? (i + 1)) OpenMode.wronlyCreatTrunc ::
        (if openOutputOk (args.get? (i + 1)) then
          Event.dup2 Fd.stdout :: execSeq execOk (args.get? 0) (redirArgv args i)
        else [Event.perrorMsg "Output file failed", Event.exitCode 1]) =
      [Event.openCall Option.none OpenMode.wronlyCreatTrunc,
       Event.perrorMsg "Output file failed", Event.exitCode 1]
    rw [hget]
    rfl
  · rw [h2nd]
    by_cases he : execOk <;> simp [pipeOwnerTrace, execSeq, he]

/-- Witness for the amended C4 at the concrete vector `["cat", "<"]`
(operator at the last index). -/
theorem operatorAtLastIndexFailsAfterNullOperand_witness :
    childNoPipe [] true ["cat", "<"] 1 1 =
      [Event.openCall Option.none OpenMode.rdonly,
       Event.perrorMsg "Input file failed", Event.exitCode 1]
    ∧ childNoPipe [] true ["cat", "<"] 2 1 =
      [Event.openCall Option.none OpenMode.wronlyCreatTrunc,
       Event.perrorMsg "Output file failed", Event.exitCode 1]
    ∧ secondCommand ["cat", "<"] (["cat", "<"] : List String).length 1 = [Option.none]
    ∧ Event.execCall Option.none [Option.none] ∈
        pipeOwnerTrace true (secondCommand ["cat", "<"] (["cat", "<"] : List String).length 1) :=
  operatorAtLastIndexFailsAfterNullOperand [] true ["cat", "<"] 1 (by decide)

/-! ## Output redirection truncates (C7) -/

/-- Looking up a file right after setting it yields the new value. -/
theorem fsGet_fsSet (fs : Fs) (n v : String) : fsGet (fsSet fs n v) n = some v := by
  induction fs with
  | nil => simp [fsSet, fsGet]
  | cons p rest ih =>
    obtain ⟨m, w⟩ := p
    by_cases h : m = n
    · simp [fsSet, fsGet, h]
    · simp [fsSet, fsGet, h, ih]

/-- C7: the output file is truncated to empty on open
(`O_WRONLY | O_CREAT | O_TRUNC`, shell.c line 257), one run leaves it
holding exactly the command's output, and a second identical run leaves
it unchanged (truncate, not append); in particular two runs of
`echo hi > out.txt` leave exactly `"hi\n"`. -/
theorem outputRedirectTruncates :
    (∀ (fs : Fs) (n out : String),
      fsGet (openOutputFs fs n) n = some ""
      ∧ fsGet (runOutputRedirect fs n out) n = some out
      ∧ fsGet (runOutputRedirect (runOutputRedirect fs n out) n out) n = some out)
    ∧ fsGet (runOutputRedirect (runOutputRedirect [] "out.txt" "hi\n") "out.txt" "hi\n")
        "out.txt" = some "hi\n" := by
  have key : ∀ (fs : Fs) (n out : String),
      fsGet (runOutputRedirect fs n out) n = some out := by
    intro fs n out
    show fsGet (fsSet (fsSet fs n "") n ((fsGet (fsSet fs n "") n).getD "" ++ out)) n =
      some out
    rw [fsGet_fsSet, fsGet_fsSet]
    rfl
  refine ⟨fun fs n out => ⟨fsGet_fsSet fs n "", key fs n out, key _ n out⟩, key _ _ _⟩

/-! ## Exec failure terminates the child (C9) -/

/-- C9: whenever the no-pipe child's `execvp` call fails, the events
after the exec call are exactly the error report and `exit(1)` — the
child never falls through to the code after the exec guard (shell.c
lines 276-285); every failing child trace ends in `exit(1)`, so a
waiting parent's `wait` returns and the main loop continues; the two
pipe-branch processes behave the same way on exec failure. -/
theorem execFailureTerminatesChild :
    (∀ (fs : Fs) (args : List String) (ioRedirect i : Nat) (p : Option String)
        (a : List (Option String)),
      Event.execCall p a ∈ childNoPipe fs false args ioRedirect i →
      ∃ pre, childNoPipe fs false args ioRedirect i =
        pre ++ [Event.execCall p a, Event.perrorMsg "Exec failed", Event.exitCode 1])
    ∧ (∀ (fs : Fs) (args : List String) (ioRedirect i : Nat),
        (childNoPipe fs false args ioRedirect i).getLast? = some (Event.exitCode 1))
    ∧ (∀ second : List (Option String),
        (pipeOwnerTrace false second).getLast? = some (Event.exitCode 1))
    ∧ (∀ first : List (Option String),
        (pipeGrandchildTrace false first).getLast? = some (Event.exitCode 1)) := by
  refine ⟨?_, ?_, fun second => rfl, fun first => rfl⟩
  · intro fs args ioR i p a hmem
    unfold childNoPipe at hmem ⊢
    by_cases h1 : ioR = 1
    · rw [if_pos h1] at hmem ⊢
      by_cases ho : openInputOk fs (args.get? (i + 1))
      · rw [if_pos ho] at hmem ⊢
        simp [execSeq] at hmem
        obtain ⟨hp, ha⟩ := hmem
        subst hp
        subst ha
        exact ⟨[Event.openCall (args.get? (i + 1)) OpenMode.rdonly, Event.dup2 Fd.stdin],
          by simp [execSeq]⟩
      · rw [if_neg ho] at hmem
        simp at hmem
    · rw [if_neg h1] at hmem ⊢
      by_cases h2 : ioR = 2
      · rw [if_pos h2] at hmem ⊢
        by_cases ho : openOutputOk (args.get? (i + 1))
        · rw [if_pos ho] at hmem ⊢
          simp [execSeq] at hmem
          obtain ⟨hp, ha⟩ := hmem
          subst hp
          subst ha
          exact ⟨[Event.openCall (args.get? (i + 1)) OpenMode.wronlyCreatTrunc,
            Event.dup2 Fd.stdout], by simp [execSeq]⟩
        · rw [if_neg ho] at hmem
          simp at hmem
      · rw [if_neg h2] at hmem ⊢
        simp [execSeq] at hmem
        obtain ⟨hp, ha⟩ := hmem
        subst hp
        subst ha
        exact ⟨[], by simp [execSeq]⟩
  · intro fs args ioR i
    unfold childNoPipe execSeq
    split
    · split
      · rfl
      · rfl
    · split
      · split
        · rfl
        · rfl
      · rfl

/-- Witness for C9: a plain command whose program does not exist. -/
theorem execFailureTerminatesChild_witness :
    ∃ pre, childNoPipe [] false ["nosuch"] 0 1 =
      pre ++ [Event.execCall (some "nosuch") (plainArgv ["nosuch"]),
              Event.perrorMsg "Exec failed", Event.exitCode 1] :=
  execFailureTerminatesChild.1 [] ["nosuch"] 0 1 (some "nosuch") (plainArgv ["nosuch"])
    (by decide)

/-! ## Serialization of the two pipeline stages (C6) -/

/-- In any complete run whose owner process starts with `waitChild`,
the schedule splits at the wait: every grandchild event happens before
it, and the owner's remaining events form a run after it. -/
theorem run_wait_split (o g : List Event) (sched : List (Bool × Event))
    (hrun : Run (Event.waitChild :: o, g) sched ([], [])) :
    ∃ l₁ l₂, sched = l₁ ++ (true, Event.waitChild) :: l₂ ∧
      (∀ e ∈ g, (false, e) ∈ l₁) ∧ Run (o, []) l₂ ([], []) := by
  induction sched generalizing g with
  | nil => cases hrun
  | cons a l ih =>
    cases hrun with
    | cons hstep hrest =>
      cases hstep with
      | owner hne => exact absurd rfl hne
      | ownerWait => exact ⟨[], l, rfl, by simp, hrest⟩
      | gchild =>
        rename_i e g'
        obtain ⟨l₁, l₂, hsched, hmem, hrun2⟩ := ih _ hrest
        refine ⟨(false, e) :: l₁, l₂, by rw [hsched]; rfl, ?_, hrun2⟩
        intro x hx
        rcases List.mem_cons.mp hx with h | h
        · subst h
          exact List.mem_cons_self _ _
        · exact List.mem_cons_of_mem _ (hmem x h)

/-- In a run in which only the owner has events left, every remaining
owner event appears in the schedule (tagged as the owner's). -/
theorem run_owner_mem (o : List Event) (sched : List (Bool × Event))
    (hrun : Run (o, []) sched ([], [])) :
    ∀ e ∈ o, (true, e) ∈ sched := by
  induction sched generalizing o with
  | nil =>
    cases hrun
    intro e he
    cases he
  | cons a l ih =>
    cases hrun with
    | cons hstep hrest =>
      cases hstep with
      | owner hne =>
        intro x hx
        rcases List.mem_cons.mp hx with h | h
        · subst h
          exact List.mem_cons_self _ _
        · exact List.mem_cons_of_mem _ (ih _ hrest x h)
      | ownerWait =>
        intro x hx
        rcases List.mem_cons.mp hx with h | h
        · subst h
          exact List.mem_cons_self _ _
        · exact List.mem_cons_of_mem _ (ih _ hrest x h)

/-- C6: in every complete interleaving of the pipe-owning child (shell.c
lines 199-211) with the grandchild (lines 213-225) in which
`wait(&status2)` can fire only after the grandchild has terminated, the
grandchild's exec of the First-Command precedes the wait, and the
owner's redirection of stdin and exec of the Second-Command come after
it: the second stage is never invoked while the first is running. -/
theorem pipeStagesSerialized (first second : List (Option String)) (ek1 ek2 : Bool)
    (sched : List (Bool × Event))
    (hrun : Run (pipeOwnerTrace ek2 second, pipeGrandchildTrace ek1 first) sched ([], [])) :
    ∃ l₁ l₂, sched = l₁ ++ (true, Event.waitChild) :: l₂ ∧
      (false, Event.execCall ((first.get? 0).join) first) ∈ l₁ ∧
      (true, Event.execCall ((second.get? 0).join) second) ∈ l₂ := by
  obtain ⟨l₁, l₂, hsched, hmem, hrun2⟩ := run_wait_split _ _ sched hrun
  refine ⟨l₁, l₂, hsched, ?_, ?_⟩
  · apply hmem
    simp [pipeGrandchildTrace, execSeq]
  · apply run_owner_mem _ _ hrun2
    simp [execSeq]

/-- Witness for C6: the fully serialized schedule of `ls | wc`. -/
theorem pipeStagesSerialized_witness :
    ∃ l₁ l₂,
      ([(false, Event.dup2 Fd.stdout), (false, Event.closeFd), (false, Event.closeFd),
        (false, Event.execCall (some "ls") [some "ls", Option.none]),
        (true, Event.waitChild), (true, Event.dup2 Fd.stdin), (true, Event.closeFd),
        (true, Event.closeFd),
        (true, Event.execCall (some "wc") [some "wc", Option.none])] :
          List (Bool × Event)) = l₁ ++ (true, Event.waitChild) :: l₂ ∧
      (false, Event.execCall ((([some "ls", Option.none] : List (Option String)).get? 0).join)
        [some "ls", Option.none]) ∈ l₁ ∧
      (true, Event.execCall ((([some "wc", Option.none] : List (Option String)).get? 0).join)
        [some "wc", Option.none]) ∈ l₂ :=
  pipeStagesSerialized [some "ls", Option.none] [some "wc", Option.none] true true _
    (Run.cons PStep.gchild (Run.cons PStep.gchild (Run.cons PStep.gchild
      (Run.cons PStep.gchild (Run.cons PStep.ownerWait
      (Run.cons (PStep.owner (by decide)) (Run.cons (PStep.owner (by decide))
      (Run.cons (PStep.owner (by decide)) (Run.cons (PStep.owner (by decide))
      Run.nil)))))))))

/-! ## Tokenization never overflows the argument array (C10) -/

/-- A token list of `t` tokens needs at least `2t - 1` input
characters, expressed as an invariant of the tokenizer accumulator. -/
theorem tokenizeAux_length_bound (s cur : List Char) :
    2 * (tokenizeAux s cur).length ≤ s.length + (if cur.isEmpty then 1 else 2) := by
  induction s generalizing cur with
  | nil => by_cases h : cur.isEmpty <;> simp [tokenizeAux, h]
  | cons c rest ih =>
    by_cases hc : c = ' '
    · by_cases h : cur.isEmpty
      · have hb := ih []
        simp at hb
        simp [tokenizeAux, hc, h]
        omega
      · have hb := ih []
        simp at hb
        simp [tokenizeAux, hc, h]
        omega
    · have hb := ih (c :: cur)
      simp at hb
      by_cases h : cur.isEmpty <;> simp [tokenizeAux, hc, h] <;> omega

/-- C10: any command line that fits the 80-byte buffer (at most 79
characters) tokenizes into at most 40 arguments, so all writes
`args[0] ... args[numArgs]` (tokens plus the NULL sentinel) stay within
the `args` array of `MAX_LINE / 2 + 1 = 41` entries. -/
theorem tokenCountFitsArgumentArray (line : List Char) (h : line.length ≤ MAX_LINE - 1) :
    (tokenize line).length ≤ 40 ∧ (tokenize line).length + 1 ≤ argSize := by
  have hb := tokenizeAux_length_bound line []
  simp only [List.isEmpty_nil, if_pos] at hb
  have hlen : (tokenize line).length = (tokenizeAux line []).length := by
    unfold tokenize
    rw [List.length_map]
  have hM : MAX_LINE - 1 = 79 := rfl
  have hA : argSize = 41 := rfl
  rw [hM] at h
  rw [hA, hlen]
  omega

/-- Witness for C10 at a concrete 5-character line. -/
theorem tokenCountFitsArgumentArray_witness :
    (tokenize "ls -l".toList).length ≤ 40
    ∧ (tokenize "ls -l".toList).length + 1 ≤ argSize :=
  tokenCountFitsArgumentArray "ls -l".toList (by decide)

end CShell
